import Mathlib

/-!
Shallow embedding of the page-range normalization logic of
`src/yourapp/tools/split/routes.py` and the signature placement transform of
`src/yourapp/tools/sign/routes.py`, together with theorems settling the
specification claims about them.

Numeric conventions: Python ints are embedded as `Int`; the floating point
arithmetic of the sign tool is embedded as exact rational arithmetic over `ℚ`.
-/

namespace PdfLove

/-- Error kinds of the split tool's range pipeline, named after the spec's
error taxonomy.  In the source each is a `ValueError` / `abort(400)` with a
distinct message. -/
inductive RangeError where
  | invalidRangeFormat
  | invalidRangeBounds
  | noRangesProvided
  | rangesOutOfBounds
deriving DecidableEq, Repr

/-- Helper for `pythonInt`: a nonempty all-digit character list read as a
decimal natural number. -/
def digitsToNat (l : List Char) : Option Nat :=
  if l ≠ [] ∧ l.all Char.isDigit then
    some (l.foldl (fun a c => 10 * a + (c.toNat - ('0').toNat)) 0)
  else none

/-- Embedding of Python's `int(s)` on strings: optional surrounding spaces,
optional single leading sign, then one or more decimal digits; anything else
raises `ValueError`, embedded as `none`.  (Python also strips other
whitespace characters and allows `_` digit separators; no claim depends on
those and the source's form fields never contain them.) -/
def pythonInt (s : String) : Option Int :=
  let cs := ((s.toList.dropWhile (· = ' ')).reverse.dropWhile (· = ' ')).reverse
  match cs with
  | [] => none
  | c :: rest =>
    if c = '-' then (digitsToNat rest).map (fun n => -(n : Int))
    else if c = '+' then (digitsToNat rest).map (fun n => (n : Int))
    else (digitsToNat cs).map (fun n => (n : Int))

/-- Embedding of the `for s, e in zip(starts, ends)` loop body of
`parse_ranges` (split/routes.py lines 22–32): skip a pair when either side is
the empty string, fail with `InvalidRangeFormat` when a side does not parse
as an integer, fail with `InvalidRangeBounds` when `s_i < 1 or e_i < 1 or
e_i < s_i`, otherwise collect `(s_i, e_i)` in order. -/
def parseLoop : List (String × String) → Except RangeError (List (Int × Int))
  | [] => Except.ok []
  | (s, e) :: rest =>
    if s = "" ∨ e = "" then parseLoop rest
    else
      match pythonInt s, pythonInt e with
      | some si, some ei =>
        if si < 1 ∨ ei < 1 ∨ ei < si then Except.error RangeError.invalidRangeBounds
        else (parseLoop rest).map (fun l => (si, ei) :: l)
      | _, _ => Except.error RangeError.invalidRangeFormat

/-- Lexicographic order on `(start, end)` pairs, the order induced by the
sort key `lambda t: (t[0], t[1])` in `parse_ranges`. -/
def rLex (a b : Int × Int) : Prop :=
  a.1 < b.1 ∨ (a.1 = b.1 ∧ a.2 ≤ b.2)

instance : DecidableRel rLex := fun a b => by
  unfold rLex; infer_instance

instance : IsTotal (Int × Int) rLex :=
  ⟨fun a b => by unfold rLex; omega⟩

instance : IsTrans (Int × Int) rLex :=
  ⟨fun a b c hab hbc => by unfold rLex at *; omega⟩

instance : IsAntisymm (Int × Int) rLex :=
  ⟨fun a b hab hba => by
    unfold rLex at *
    have : a.1 = b.1 ∧ a.2 = b.2 := by omega
    exact Prod.ext this.1 this.2⟩

/-- Embedding of `ranges.sort(key=lambda t: (t[0], t[1]))`.  Python's
`list.sort` is a stable sort with respect to the key order; `insertionSort`
is the same stable sort, expressed structurally. -/
def sortRanges (l : List (Int × Int)) : List (Int × Int) :=
  List.insertionSort rLex l

/-- Decidable equality for the `Except` results of the embedded routines. -/
def exceptDecEq {ε α : Type} [DecidableEq ε] [DecidableEq α] :
    DecidableEq (Except ε α)
  | Except.error a, Except.error b =>
    if h : a = b then isTrue (by rw [h]) else isFalse (by intro hc; cases hc; exact h rfl)
  | Except.error _, Except.ok _ => isFalse (by intro hc; cases hc)
  | Except.ok _, Except.error _ => isFalse (by intro hc; cases hc)
  | Except.ok a, Except.ok b =>
    if h : a = b then isTrue (by rw [h]) else isFalse (by intro hc; cases hc; exact h rfl)

instance {ε α : Type} [DecidableEq ε] [DecidableEq α] : DecidableEq (Except ε α) :=
  exceptDecEq

/-- Embedding of `parse_ranges` (split/routes.py lines 17–37): zip the two
raw field lists positionally, run the parsing loop, fail with
`NoRangesProvided` when no valid pair was collected, and finally sort by
`(start, end)`. -/
def parse_ranges (starts ends : List String) : Except RangeError (List (Int × Int)) :=
  match parseLoop (starts.zip ends) with
  | Except.error err => Except.error err
  | Except.ok ranges =>
    if ranges = [] then Except.error RangeError.noRangesProvided
    else Except.ok (sortRanges ranges)

/-- Embedding of the clip loop of `split_post` (split/routes.py lines 73–80):
drop a range whose `start` exceeds `total_pages`, clamp `end` down to
`total_pages`, and keep the result only when the clamped `end` is still at
least `start`. -/
def clipRanges (ranges : List (Int × Int)) (total_pages : Int) : List (Int × Int) :=
  ranges.filterMap (fun r =>
    if r.1 > total_pages then none
    else
      let e2 := min r.2 total_pages
      if e2 ≥ r.1 then some (r.1, e2) else none)

/-- Embedding of `max(e for _, e in clipped)` over a clipped list, taking the
head as the initial accumulator (Python's `max` requires nonemptiness, which
`split_post` has established when it evaluates this). -/
def lastEnd (clipped : List (Int × Int)) : Int :=
  ((clipped.map Prod.snd).foldl max (clipped.headD (0, 0)).2)

/-- Embedding of the gap-fill step of `split_post` (split/routes.py lines
84–87): append `(last_end + 1, total_pages)` when `last_end < total_pages`. -/
def gapFill (clipped : List (Int × Int)) (total_pages : Int) : List (Int × Int) :=
  if lastEnd clipped < total_pages then clipped ++ [(lastEnd clipped + 1, total_pages)]
  else clipped

/-- Embedding of the clip-then-gap-fill portion of `split_post` (lines
73–87): clip the parsed ranges, fail with `RangesOutOfBounds` when nothing
survives, otherwise gap-fill.  The result is the effective `RangePlan` the
route slices by. -/
def buildPlan (ranges : List (Int × Int)) (total_pages : Int) :
    Except RangeError (List (Int × Int)) :=
  let clipped := clipRanges ranges total_pages
  if clipped = [] then Except.error RangeError.rangesOutOfBounds
  else Except.ok (gapFill clipped total_pages)

/-- Error kinds named by the spec for the sign tool's placement transform.
The source of `paste_signature_on_pdf` and `sign_post` raises neither of
them; the type records the labels so that theorems can state which failures
the embedded routine can and cannot produce. -/
inductive SignError where
  | invalidWidth
  | placementOutOfRange
deriving DecidableEq, Repr

/-- ReportLab's `pdfmetrics.stringWidth(txt, font, size)` is linear in
`size`: it equals `unitWidth * size`, where `unitWidth` is the width of the
fixed text `txt` in the fixed registered font at size 1 (a nonnegative font
metric).  The embedding takes `unitWidth` as a parameter `uw`. -/
def stringWidth (uw size : ℚ) : ℚ := uw * size

/-- Embedding of the initial guess of `paste_signature_on_pdf` (sign/routes.py
lines 182–185): start from `candidate_size = 120.0`, replace a zero measured
width by `1.0` (Python's `or 1.0` on a falsy float), scale proportionally to
the target width and clamp into `[4, 300]`. -/
def initialSize (uw sig_width_pt : ℚ) : ℚ :=
  let w := if stringWidth uw 120 = 0 then 1 else stringWidth uw 120
  let scale := sig_width_pt / w
  max 4 (min (120 * scale) 300)

/-- Embedding of one pass of the fine-tune loop body (sign/routes.py lines
188–192): measure the width (a zero measurement becomes `0.1`), stop when it
fits or the 4 pt floor is reached, otherwise shrink by the factor `0.92`
clamped at the floor.  The `fuel` argument is the `range(20)` iteration
budget. -/
def refineLoop (uw sig_width_pt : ℚ) : ℚ → ℕ → ℚ
  | c, 0 => c
  | c, fuel + 1 =>
    let w := if stringWidth uw c = 0 then 1 / 10 else stringWidth uw c
    if w ≤ sig_width_pt ∨ c ≤ 4 then c
    else refineLoop uw sig_width_pt (max 4 (c * (92 / 100))) fuel

/-- Trace of the candidate sizes the fine-tune loop passes through, starting
at the entry candidate; the last element is the size the loop returns. -/
def refineTrace (uw sig_width_pt : ℚ) : ℚ → ℕ → List ℚ
  | c, 0 => [c]
  | c, fuel + 1 =>
    let w := if stringWidth uw c = 0 then 1 / 10 else stringWidth uw c
    if w ≤ sig_width_pt ∨ c ≤ 4 then [c]
    else c :: refineTrace uw sig_width_pt (max 4 (c * (92 / 100))) fuel

/-- Font size chosen by `paste_signature_on_pdf` for drawing the signature
text: initial proportional guess followed by at most 20 fine-tune passes. -/
def fitSize (uw sig_width_pt : ℚ) : ℚ :=
  refineLoop uw sig_width_pt (initialSize uw sig_width_pt) 20

/-- Size trace of the whole fitting computation for a request. -/
def fitTrace (uw sig_width_pt : ℚ) : List ℚ :=
  refineTrace uw sig_width_pt (initialSize uw sig_width_pt) 20

/-- Embedding of `ascent_approx = candidate_size * 0.80` (sign/routes.py
line 196). -/
def ascentApprox (size : ℚ) : ℚ := size * (80 / 100)

/-- Embedding of the x conversion `x_pt = x_norm * page_w` (line 199). -/
def x_pt (x_norm page_w : ℚ) : ℚ := x_norm * page_w

/-- Embedding, verbatim, of the baseline conversion on line 202:
`y_baseline = page_h - y_top_pt - (candidate_size - (candidate_size - ascent_approx))`
with `y_top_pt = y_norm * page_h`. -/
def y_baseline (page_h y_norm size : ℚ) : ℚ :=
  page_h - (y_norm * page_h) - (size - (size - ascentApprox size))

/-- Formula of the spec sentence for text placement, written from the spec's
words for comparison with the source's `y_baseline`:
`y_baseline(for text placement) = page_h - y_top_pt - (h_pt - ascent)`. -/
def y_baseline_spec (page_h y_norm size : ℚ) : ℚ :=
  page_h - (y_norm * page_h) - (size - ascentApprox size)

/-- Modelled from the spec: the raster-mode (image placement) bottom-left
conversion `y_pt = page_h - y_top_pt - h_pt`.  No image-placement code exists
in `paste_signature_on_pdf` (the route draws vector text only), so this mode
is taken from the spec's words. -/
def y_pt_image (page_h y_top_pt h_pt : ℚ) : ℚ :=
  page_h - y_top_pt - h_pt

/-- One placement entry `{page_index, x_norm, y_norm}` after the
`int(...)` / `float(...)` conversions of the grouping loop succeed. -/
structure Placement where
  page_index : Int
  x_norm : ℚ
  y_norm : ℚ
deriving DecidableEq, Repr

/-- Page dimensions `(page_w, page_h)` in points, read from the media box. -/
structure PageDim where
  w : ℚ
  h : ℚ
deriving DecidableEq, Repr

/-- Embedding of the grouping loop of `paste_signature_on_pdf` (lines
162–170) restricted to one key: the coordinates, in input order, of the
placements whose `page_index` equals `i`.  A `none` entry stands for a raw
placement dict whose fields fail the `int`/`float` conversions; the source
skips it with `continue`. -/
def placementsFor (placements : List (Option Placement)) (i : Int) : List (ℚ × ℚ) :=
  placements.filterMap (fun op =>
    op.bind (fun p => if p.page_index = i then some (p.x_norm, p.y_norm) else none))

/-- Embedding of the page loop of `paste_signature_on_pdf` (lines 172–211):
for each document page, when at least one placement targets it, draw the
signature text at the converted coordinates with the fitted size; pages with
no placement are passed through with no draws.  The result pairs each page's
dimensions with the list of `(x_pt, y_baseline)` draw coordinates merged onto
it.  The source raises no labeled failure in this loop, which the `Except`
result type makes visible. -/
def paste_signature_on_pdf (pages : List PageDim) (placements : List (Option Placement))
    (uw sig_width_pt : ℚ) : Except SignError (List (PageDim × List (ℚ × ℚ))) :=
  Except.ok (pages.enum.map (fun pr =>
    let coords := placementsFor placements (Int.ofNat pr.1)
    if coords = [] then (pr.2, [])
    else
      let size := fitSize uw sig_width_pt
      (pr.2, coords.map (fun c => (x_pt c.1 pr.2.w, y_baseline pr.2.h c.2 size)))))

/-- Test that a placement entry targets an existing page of an `n`-page
document: a parse failure entry is kept (the source skips it in grouping
regardless), a parsed placement must have `page_index ∈ [0, n)`. -/
def placementInRange (n : ℕ) (op : Option Placement) : Bool :=
  match op with
  | some p => decide (0 ≤ p.page_index ∧ p.page_index < (n : Int))
  | none => true

/-- Clip step written from the spec's words: "drop any range whose `start >
total_pages`; clamp any range's `end` down to `total_pages`. Drop a range if
after clamping `end < start`."  Compared against the source-derived
`clipRanges` in the C3 theorem. -/
def specClip (ranges : List (Int × Int)) (total_pages : Int) : List (Int × Int) :=
  ((ranges.filter (fun r => r.1 ≤ total_pages)).map
    (fun r => (r.1, min r.2 total_pages))).filter (fun r => r.1 ≤ r.2)

/-- Classification of one non-skipped raw pair: `InvalidRangeFormat` when a
side fails integer parsing, `InvalidRangeBounds` when the parsed bounds
violate `start ≥ 1 ∧ end ≥ start`, and no error otherwise. -/
def pairErr (p : String × String) : Option RangeError :=
  match pythonInt p.1, pythonInt p.2 with
  | some si, some ei =>
    if si < 1 ∨ ei < 1 ∨ ei < si then some RangeError.invalidRangeBounds else none
  | _, _ => some RangeError.invalidRangeFormat

/-- The parsed integer pair of a raw pair whose two sides parse. -/
def parsedPair (p : String × String) : Option (Int × Int) :=
  match pythonInt p.1, pythonInt p.2 with
  | some si, some ei => some (si, ei)
  | _, _ => none

/-- The positionally paired raw pairs that survive the empty-side skip. -/
def remainingPairs (starts ends : List String) : List (String × String) :=
  (starts.zip ends).filter (fun p => ¬(p.1 = "" ∨ p.2 = ""))

/-- Error of the first offending pair, in positional order, among a list of
non-skipped raw pairs. -/
def firstPairError (pairs : List (String × String)) : Option RangeError :=
  (pairs.find? (fun p => (pairErr p).isSome)).bind pairErr

example : pythonInt "12" = some 12 := by decide
example : pythonInt "-3" = some (-3) := by decide
example : pythonInt "a" = none := by decide
example : pythonInt "" = none := by decide
example : pythonInt " 7 " = some 7 := by decide
example : parse_ranges ["1", "5"] ["3", "6"] = Except.ok [(1, 3), (5, 6)] := by decide
example : parse_ranges ["5"] ["2"] = Except.error RangeError.invalidRangeBounds := by decide
example : parse_ranges ["a"] ["3"] = Except.error RangeError.invalidRangeFormat := by decide
example : parse_ranges [""] [""] = Except.error RangeError.noRangesProvided := by decide
example : clipRanges [(3, 10)] 5 = [(3, 5)] := by decide
example : buildPlan [(9, 12)] 5 = Except.error RangeError.rangesOutOfBounds := by decide
example : buildPlan [(1, 3), (5, 6)] 10 = Except.ok [(1, 3), (5, 6), (7, 10)] := by decide

/-- C1: for every clipped, non-empty range list and `total_pages`, when
`last_end = max(end)` over the clipped list is strictly below `total_pages`
the gap-fill step appends exactly the one synthetic trailing range
`(last_end + 1, total_pages)` as the final plan entry, and appends nothing
when `last_end` equals `total_pages`. -/
theorem C1_gap_fill (clipped : List (Int × Int)) (total_pages : Int)
    (hne : clipped ≠ []) :
    (lastEnd clipped < total_pages →
      gapFill clipped total_pages = clipped ++ [(lastEnd clipped + 1, total_pages)]) ∧
    (lastEnd clipped = total_pages → gapFill clipped total_pages = clipped) := by
  constructor
  · intro h
    simp [gapFill, h]
  · intro h
    simp [gapFill, h]

/-- Witness for C1 at the spec's own example: `total_pages = 10`, clipped
ranges `[(1,3),(5,6)]`; the plan ends with the appended `(7,10)`. -/
theorem C1_gap_fill_witness :
    ([(1, 3), (5, 6)] : List (Int × Int)) ≠ [] ∧
    gapFill [(1, 3), (5, 6)] 10 = [(1, 3), (5, 6), (7, 10)] := by
  refine ⟨by decide, ?_⟩
  have h := (C1_gap_fill [(1, 3), (5, 6)] 10 (by decide)).1 (by decide)
  exact h.trans (by decide)

/-- C3: the clip step drops every range with `start > total_pages`, replaces
each surviving range's `end` by `min(end, total_pages)`, drops a range whose
clamped `end` falls below `start`, and `split_post` fails with
`RangesOutOfBounds` exactly when the clipped list is empty; in particular
`total_pages = 5` with sole range `(9,12)` fails, and `(3,10)` with
`total_pages = 5` becomes `(3,5)`. -/
theorem C3_clip (ranges : List (Int × Int)) (total_pages : Int) :
    clipRanges ranges total_pages = specClip ranges total_pages ∧
    (buildPlan ranges total_pages = Except.error RangeError.rangesOutOfBounds ↔
      clipRanges ranges total_pages = []) ∧
    buildPlan [(9, 12)] 5 = Except.error RangeError.rangesOutOfBounds ∧
    clipRanges [(3, 10)] 5 = [(3, 5)] := by
  refine ⟨?_, ?_, by decide, by decide⟩
  · induction ranges with
    | nil => rfl
    | cons r rest ih =>
      by_cases h1 : r.1 ≤ total_pages
      · by_cases h2 : r.1 ≤ min r.2 total_pages
        · have hl : clipRanges (r :: rest) total_pages =
              (r.1, min r.2 total_pages) :: clipRanges rest total_pages := by
            unfold clipRanges
            rw [List.filterMap_cons]
            rw [if_neg (not_lt.mpr h1), if_pos h2]
          have hr : specClip (r :: rest) total_pages =
              (r.1, min r.2 total_pages) :: specClip rest total_pages := by
            unfold specClip
            rw [List.filter_cons, if_pos (by simpa using h1), List.map_cons,
              List.filter_cons, if_pos (by simpa using h2)]
          rw [hl, hr, ih]
        · have hl : clipRanges (r :: rest) total_pages = clipRanges rest total_pages := by
            unfold clipRanges
            rw [List.filterMap_cons]
            rw [if_neg (not_lt.mpr h1), if_neg h2]
          have hr : specClip (r :: rest) total_pages = specClip rest total_pages := by
            unfold specClip
            rw [List.filter_cons, if_pos (by simpa using h1), List.map_cons,
              List.filter_cons, if_neg (by simpa using h2)]
          rw [hl, hr, ih]
      · have hl : clipRanges (r :: rest) total_pages = clipRanges rest total_pages := by
          unfold clipRanges
          rw [List.filterMap_cons]
          rw [if_pos (not_le.mp h1)]
        have hr : specClip (r :: rest) total_pages = specClip rest total_pages := by
          unfold specClip
          rw [List.filter_cons, if_neg (by simpa using h1)]
        rw [hl, hr, ih]
  · by_cases h : clipRanges ranges total_pages = [] <;> simp [buildPlan, h]

/-- C10: when `starts` and `ends` have unequal lengths the parser does not
fail on that account; it pairs positionally up to the shorter length and
ignores surplus elements, so its result equals the result on the two lists
truncated to the common length. -/
theorem C10_truncation (starts ends : List String) :
    parse_ranges starts ends =
      parse_ranges (starts.take (min starts.length ends.length))
        (ends.take (min starts.length ends.length)) := by
  have h := List.zip_eq_zip_take_min starts ends
  unfold parse_ranges
  rw [← h]

/-- C2 counterexample: the source's baseline (line 202) at the claim's
example page `612×792`, `y_norm = 0`, `h_pt = 20` is `776`, not the claimed
`page_h - y_norm*page_h - (h_pt - ascent) = 788`. -/
theorem C2_counterexample :
    y_baseline 792 0 20 = 776 ∧ y_baseline_spec 792 0 20 = 788 ∧
    y_baseline 792 0 20 ≠ y_baseline_spec 792 0 20 := by
  refine ⟨by norm_num [y_baseline, ascentApprox], by norm_num [y_baseline_spec, ascentApprox],
    by norm_num [y_baseline, y_baseline_spec, ascentApprox]⟩

/-- C2 amended: the transform computes `x_pt = x_norm * page_w`, and the text
baseline is `page_h - y_norm*page_h - ascent` with `ascent = 0.80 * h_pt`
(the source's `size - (size - ascent)` simplifies to `ascent`); the raster
image formula `y_pt = page_h - y_top_pt - h_pt`, modelled from the spec,
yields `772` at `(0,0)` on a `612×792` page with `h_pt = 20`, and
`x_pt = 0` there. -/
theorem C2_amended (x_norm y_norm page_w page_h size : ℚ) :
    x_pt x_norm page_w = x_norm * page_w ∧
    y_baseline page_h y_norm size = page_h - (y_norm * page_h) - ascentApprox size ∧
    y_pt_image 792 0 20 = 772 ∧
    x_pt 0 612 = 0 := by
  refine ⟨rfl, ?_, by norm_num [y_pt_image], by norm_num [x_pt]⟩
  unfold y_baseline ascentApprox
  ring

/-- C4 counterexample: with `starts = ["0","a"]`, `ends = ["1","1"]` the
remaining pair `("a","1")` has a side that does not parse as an integer, yet
the operation fails with `InvalidRangeBounds` (raised for the earlier pair
`("0","1")`), not `InvalidRangeFormat`. -/
theorem C4_counterexample :
    pythonInt "a" = none ∧
    parse_ranges ["0", "a"] ["1", "1"] = Except.error RangeError.invalidRangeBounds ∧
    parse_ranges ["0", "a"] ["1", "1"] ≠ Except.error RangeError.invalidRangeFormat := by
  exact ⟨by decide, by decide, by decide⟩

/-- Characterization of the parse loop: its outcome is the error of the
first offending non-skipped pair when one exists, and otherwise the parsed
pairs of all non-skipped pairs in order. -/
theorem parseLoop_eq (pairs : List (String × String)) :
    parseLoop pairs =
      match firstPairError (pairs.filter (fun p => ¬(p.1 = "" ∨ p.2 = ""))) with
      | some err => Except.error err
      | none =>
        Except.ok ((pairs.filter (fun p => ¬(p.1 = "" ∨ p.2 = ""))).filterMap parsedPair) := by
  induction pairs with
  | nil => rfl
  | cons p rest ih =>
    by_cases hskip : p.1 = "" ∨ p.2 = ""
    · have hcons : (p :: rest).filter (fun q => ¬(q.1 = "" ∨ q.2 = "")) =
          rest.filter (fun q => ¬(q.1 = "" ∨ q.2 = "")) := by
        rw [List.filter_cons, if_neg (by simp only [decide_eq_true_eq]; exact not_not_intro hskip)]
      rw [hcons, parseLoop, if_pos hskip]
      exact ih
    · have hcons : (p :: rest).filter (fun q => ¬(q.1 = "" ∨ q.2 = "")) =
          p :: rest.filter (fun q => ¬(q.1 = "" ∨ q.2 = "")) := by
        rw [List.filter_cons, if_pos (by simpa using hskip)]
      rw [hcons, parseLoop, if_neg hskip]
      rcases hp1 : pythonInt p.1 with _ | si
      · have hperr : pairErr p = some RangeError.invalidRangeFormat := by
          simp [pairErr, hp1]
        have hfind : List.find? (fun q => (pairErr q).isSome)
            (p :: rest.filter (fun q => ¬(q.1 = "" ∨ q.2 = ""))) = some p :=
          List.find?_cons_of_pos _ (by simp [hperr])
        have hfirst : firstPairError (p :: rest.filter (fun q => ¬(q.1 = "" ∨ q.2 = ""))) =
            some RangeError.invalidRangeFormat := by
          simp [firstPairError, hfind, hperr]
        rw [hfirst]
      · rcases hp2 : pythonInt p.2 with _ | ei
        · have hperr : pairErr p = some RangeError.invalidRangeFormat := by
            simp [pairErr, hp1, hp2]
          have hfind : List.find? (fun q => (pairErr q).isSome)
              (p :: rest.filter (fun q => ¬(q.1 = "" ∨ q.2 = ""))) = some p :=
            List.find?_cons_of_pos _ (by simp [hperr])
          have hfirst : firstPairError (p :: rest.filter (fun q => ¬(q.1 = "" ∨ q.2 = ""))) =
              some RangeError.invalidRangeFormat := by
            simp [firstPairError, hfind, hperr]
          rw [hfirst]
        · by_cases hb : si < 1 ∨ ei < 1 ∨ ei < si
          · have hperr : pairErr p = some RangeError.invalidRangeBounds := by
              simp [pairErr, hp1, hp2, hb]
            have hfind : List.find? (fun q => (pairErr q).isSome)
                (p :: rest.filter (fun q => ¬(q.1 = "" ∨ q.2 = ""))) = some p :=
              List.find?_cons_of_pos _ (by simp [hperr])
            have hfirst : firstPairError (p :: rest.filter (fun q => ¬(q.1 = "" ∨ q.2 = ""))) =
                some RangeError.invalidRangeBounds := by
              simp [firstPairError, hfind, hperr]
            rw [hfirst]
            simp [if_pos hb]
          · have hperr : pairErr p = none := by
              simp [pairErr, hp1, hp2, hb]
            have hfind : List.find? (fun q => (pairErr q).isSome)
                (p :: rest.filter (fun q => ¬(q.1 = "" ∨ q.2 = ""))) =
                List.find? (fun q => (pairErr q).isSome)
                  (rest.filter (fun q => ¬(q.1 = "" ∨ q.2 = ""))) :=
              List.find?_cons_of_neg _ (by simp [hperr])
            have hfirst : firstPairError (p :: rest.filter (fun q => ¬(q.1 = "" ∨ q.2 = ""))) =
                firstPairError (rest.filter (fun q => ¬(q.1 = "" ∨ q.2 = ""))) := by
              simp only [firstPairError, hfind]
            have hpp : parsedPair p = some (si, ei) := by
              simp [parsedPair, hp1, hp2]
            rw [hfirst]
            simp only [if_neg hb]
            rcases hfe : firstPairError (rest.filter (fun q => ¬(q.1 = "" ∨ q.2 = ""))) with
              _ | err
            · rw [hfe] at ih
              rw [ih]
              simp [Except.map, List.filterMap_cons, hpp]
            · rw [hfe] at ih
              rw [ih]
              simp [Except.map]

/-- C4 amended: pairs with an empty side are skipped without error; among the
remaining pairs, the first offending pair in positional order determines the
failure — `InvalidRangeFormat` when one of its sides does not parse as an
integer, `InvalidRangeBounds` when it parses but violates `start ≥ 1` or
`end ≥ start`; when no pair offends, the operation fails with
`NoRangesProvided` exactly when zero valid pairs remain, and otherwise
succeeds with the parsed pairs. -/
theorem C4_parse_error_order (starts ends : List String) :
    parse_ranges starts ends =
      match firstPairError (remainingPairs starts ends) with
      | some err => Except.error err
      | none =>
        if remainingPairs starts ends = [] then Except.error RangeError.noRangesProvided
        else Except.ok (sortRanges ((remainingPairs starts ends).filterMap parsedPair)) := by
  unfold parse_ranges remainingPairs
  rw [parseLoop_eq]
  rcases hfe : firstPairError ((starts.zip ends).filter (fun p => ¬(p.1 = "" ∨ p.2 = "")))
    with _ | err
  · rcases hf : List.find? (fun q => (pairErr q).isSome)
        ((starts.zip ends).filter (fun p => ¬(p.1 = "" ∨ p.2 = ""))) with _ | q
    · have hall : ∀ p ∈ (starts.zip ends).filter (fun p => ¬(p.1 = "" ∨ p.2 = "")),
          pairErr p = none := by
        intro p hp
        have h2 := List.find?_eq_none.mp hf p hp
        simpa [Option.isSome_iff_ne_none] using h2
      rcases hL : (starts.zip ends).filter (fun p => ¬(p.1 = "" ∨ p.2 = "")) with _ | ⟨p, L2⟩
      · rw [hL]
        simp
      · have hperr : pairErr p = none := hall p (by rw [hL]; exact List.mem_cons_self p L2)
        have hx : ∃ x, parsedPair p = some x := by
          unfold pairErr at hperr
          unfold parsedPair
          rcases hq1 : pythonInt p.1 with _ | si
          · rw [hq1] at hperr; cases hperr
          · rcases hq2 : pythonInt p.2 with _ | ei
            · rw [hq1, hq2] at hperr; cases hperr
            · exact ⟨(si, ei), rfl⟩
        rcases hx with ⟨x, hx⟩
        rw [hL]
        simp [List.filterMap_cons, hx]
    · exfalso
      have hpred := List.find?_some hf
      have hne : pairErr q ≠ none := by
        simpa [Option.isSome_iff_ne_none] using hpred
      rw [firstPairError, hf] at hfe
      exact hne hfe
  · rfl

/-- Bounds of the clamped initial guess: it always lies in `[4, 300]`. -/
theorem initialSize_bounds (uw sig_width_pt : ℚ) :
    4 ≤ initialSize uw sig_width_pt ∧ initialSize uw sig_width_pt ≤ 300 := by
  unfold initialSize
  exact ⟨le_max_left 4 _, max_le (by norm_num) (min_le_right _ _)⟩

/-- The fine-tune loop keeps the candidate size inside `[4, 300]`. -/
theorem refineLoop_bounds (uw sig_width_pt : ℚ) :
    ∀ (n : ℕ) (c : ℚ), 4 ≤ c → c ≤ 300 →
      4 ≤ refineLoop uw sig_width_pt c n ∧ refineLoop uw sig_width_pt c n ≤ 300 := by
  intro n
  induction n with
  | zero =>
    intro c h4 h300
    exact ⟨h4, h300⟩
  | succ n ih =>
    intro c h4 h300
    rw [refineLoop]
    by_cases hstop :
        (if stringWidth uw c = 0 then 1 / 10 else stringWidth uw c) ≤ sig_width_pt ∨ c ≤ 4
    · rw [if_pos hstop]
      exact ⟨h4, h300⟩
    · rw [if_neg hstop]
      apply ih
      · exact le_max_left 4 _
      · refine max_le (by norm_num) ?_
        have hc0 : (0 : ℚ) ≤ c := by linarith
        nlinarith

/-- C9: for every string width metric and every requested width — zero and
negative values included — the font size chosen by the placement transform
lies in the closed interval `[4, 300]`: the initial proportional scaling
clamps into it and every refinement step clamps at the 4 pt floor. -/
theorem C9_font_size_interval (uw sig_width_pt : ℚ) :
    4 ≤ fitSize uw sig_width_pt ∧ fitSize uw sig_width_pt ≤ 300 :=
  refineLoop_bounds uw sig_width_pt 20 _ (initialSize_bounds uw sig_width_pt).1
    (initialSize_bounds uw sig_width_pt).2

/-- The loop returns its entry candidate whenever the entry measurement fits
or the floor has been reached. -/
theorem refineLoop_exit (uw sig_width_pt c : ℚ) (n : ℕ)
    (h : (if stringWidth uw c = 0 then 1 / 10 else stringWidth uw c) ≤ sig_width_pt ∨ c ≤ 4) :
    refineLoop uw sig_width_pt c (n + 1) = c := by
  rw [refineLoop]
  rw [if_pos h]

/-- With a zero-width text and a target below the `0.1` fallback measurement,
the loop shrinks the candidate to the 4 pt floor once the geometric decay has
brought it there. -/
theorem refineLoop_floor (uw sig_width_pt : ℚ) (huw : uw = 0) (hs : sig_width_pt < 1 / 10) :
    ∀ (n : ℕ) (c : ℚ), 4 ≤ c → c * (92 / 100) ^ n ≤ 4 →
      refineLoop uw sig_width_pt c (n + 1) = 4 := by
  intro n
  induction n with
  | zero =>
    intro c h4 hpow
    have hc : c = 4 := by
      rw [pow_zero, mul_one] at hpow
      linarith
    rw [refineLoop_exit uw sig_width_pt c 0 (Or.inr (le_of_eq hc)), hc]
  | succ n ih =>
    intro c h4 hpow
    by_cases hc : c ≤ 4
    · have hc4 : c = 4 := le_antisymm hc h4
      rw [refineLoop_exit uw sig_width_pt c (n + 1) (Or.inr hc), hc4]
    · have hw : (if stringWidth uw c = 0 then 1 / 10 else stringWidth uw c) = 1 / 10 := by
        simp [stringWidth, huw]
      rw [refineLoop]
      rw [if_neg (by rw [hw]; push_neg; exact ⟨by linarith, by linarith⟩)]
      apply ih
      · exact le_max_left 4 _
      · rcases max_choice 4 (c * (92 / 100)) with hmax | hmax
        · rw [hmax]
          have hp1 : ((92 : ℚ) / 100) ^ n ≤ 1 := by
            apply pow_le_one₀ <;> norm_num
          nlinarith
        · rw [hmax]
          calc c * (92 / 100) * (92 / 100) ^ n = c * (92 / 100) ^ (n + 1) := by ring
            _ ≤ 4 := hpow

/-- Measured width of the fitted size: it fits under the requested width
unless the computation ended at the 4 pt floor. -/
theorem fitSize_width (uw sig_width_pt : ℚ) (huw : 0 ≤ uw) :
    stringWidth uw (fitSize uw sig_width_pt) ≤ sig_width_pt ∨ fitSize uw sig_width_pt = 4 := by
  rcases eq_or_lt_of_le huw with huw0 | huwpos
  · have huw0 : uw = 0 := huw0.symm
    by_cases hs : 1 / 10 ≤ sig_width_pt
    · left
      have hfit : fitSize uw sig_width_pt = initialSize uw sig_width_pt := by
        apply refineLoop_exit
        left
        rw [if_pos (by simp [stringWidth, huw0])]
        exact hs
      rw [hfit, stringWidth, huw0, zero_mul]
      linarith
    · right
      push_neg at hs
      have hinit_le : initialSize uw sig_width_pt ≤ 12 := by
        unfold initialSize
        rw [if_pos (by simp [stringWidth, huw0])]
        refine max_le (by norm_num) (le_trans (min_le_left _ _) ?_)
        rw [div_one]
        linarith
      apply refineLoop_floor uw sig_width_pt huw0 hs 19
      · exact (initialSize_bounds uw sig_width_pt).1
      · have hpow : (0 : ℚ) ≤ (92 / 100 : ℚ) ^ 19 := by positivity
        have h12 : initialSize uw sig_width_pt * (92 / 100) ^ 19 ≤ 12 * (92 / 100) ^ 19 := by
          nlinarith
        have h4 : (12 : ℚ) * (92 / 100) ^ 19 ≤ 4 := by norm_num
        linarith
  · have h120 : stringWidth uw 120 ≠ 0 := by
      have : (0 : ℚ) < uw * 120 := by nlinarith
      simpa [stringWidth] using ne_of_gt this
    have hinit : initialSize uw sig_width_pt = max 4 (min (sig_width_pt / uw) 300) := by
      unfold initialSize
      rw [if_neg h120]
      have h12 : 120 * (sig_width_pt / stringWidth uw 120) = sig_width_pt / uw := by
        rw [stringWidth]
        field_simp
        ring
      show max 4 (min (120 * (sig_width_pt / stringWidth uw 120)) 300) =
        max 4 (min (sig_width_pt / uw) 300)
      rw [h12]
    rcases le_or_lt (sig_width_pt / uw) 4 with hc1 | hc2
    · right
      have h4 : initialSize uw sig_width_pt = 4 := by
        rw [hinit, min_eq_left (by linarith : sig_width_pt / uw ≤ 300)]
        exact max_eq_left hc1
      unfold fitSize
      rw [h4]
      exact refineLoop_exit uw sig_width_pt 4 19 (Or.inr le_rfl)
    · rcases le_or_lt (sig_width_pt / uw) 300 with hc3 | hc4
      · left
        have hinit2 : initialSize uw sig_width_pt = sig_width_pt / uw := by
          rw [hinit, min_eq_left hc3]
          exact max_eq_right (le_of_lt hc2)
        have hw : stringWidth uw (initialSize uw sig_width_pt) = sig_width_pt := by
          rw [hinit2, stringWidth]
          field_simp
        have hsigpos : 0 < sig_width_pt := by
          have h4uw : 4 * uw < sig_width_pt := by
            have := (lt_div_iff₀ huwpos).mp hc2
            linarith
          nlinarith
        have hfit : fitSize uw sig_width_pt = initialSize uw sig_width_pt := by
          apply refineLoop_exit
          left
          rw [if_neg (by rw [hw]; exact ne_of_gt hsigpos), hw]
        rw [hfit, hw]
      · left
        have hinit2 : initialSize uw sig_width_pt = 300 := by
          rw [hinit, min_eq_right (le_of_lt hc4)]
          exact max_eq_right (by norm_num)
        have hwlt : stringWidth uw 300 < sig_width_pt := by
          rw [stringWidth]
          have := (lt_div_iff₀ huwpos).mp hc4
          nlinarith
        have hfit : fitSize uw sig_width_pt = 300 := by
          unfold fitSize
          rw [hinit2]
          apply refineLoop_exit
          left
          rw [if_neg (by simp [stringWidth]; positivity)]
          exact le_of_lt hwlt
        rw [hfit]
        exact le_of_lt hwlt

/-- The trace of the fine-tune loop has at most `fuel + 1` entries. -/
theorem refineTrace_length (uw sig_width_pt : ℚ) :
    ∀ (n : ℕ) (c : ℚ), (refineTrace uw sig_width_pt c n).length ≤ n + 1 := by
  intro n
  induction n with
  | zero =>
    intro c
    rw [refineTrace]
    simp
  | succ n ih =>
    intro c
    rw [refineTrace]
    by_cases hstop :
        (if stringWidth uw c = 0 then 1 / 10 else stringWidth uw c) ≤ sig_width_pt ∨ c ≤ 4
    · rw [if_pos hstop]
      simp
    · rw [if_neg hstop]
      simpa using Nat.succ_le_succ (ih (max 4 (c * (92 / 100))))

/-- The trace starts at the entry candidate. -/
theorem refineTrace_head (uw sig_width_pt : ℚ) (n : ℕ) (c : ℚ) :
    (refineTrace uw sig_width_pt c n).head? = some c := by
  cases n with
  | zero => rfl
  | succ n =>
    rw [refineTrace]
    by_cases hstop :
        (if stringWidth uw c = 0 then 1 / 10 else stringWidth uw c) ≤ sig_width_pt ∨ c ≤ 4
    · rw [if_pos hstop]
      rfl
    · rw [if_neg hstop]
      rfl

/-- The last trace entry is the size the loop returns. -/
theorem refineTrace_getLast (uw sig_width_pt : ℚ) :
    ∀ (n : ℕ) (c : ℚ), (refineTrace uw sig_width_pt c n).getLast? =
      some (refineLoop uw sig_width_pt c n) := by
  intro n
  induction n with
  | zero =>
    intro c
    rfl
  | succ n ih =>
    intro c
    rw [refineTrace, refineLoop]
    by_cases hstop :
        (if stringWidth uw c = 0 then 1 / 10 else stringWidth uw c) ≤ sig_width_pt ∨ c ≤ 4
    · rw [if_pos hstop, if_pos hstop]
      rfl
    · rw [if_neg hstop, if_neg hstop]
      rcases hT : refineTrace uw sig_width_pt (max 4 (c * (92 / 100))) n with _ | ⟨t, ts⟩
      · have := refineTrace_head uw sig_width_pt n (max 4 (c * (92 / 100)))
        rw [hT] at this
        cases this
      · rw [List.getLast?_cons_cons, ← hT]
        exact ih _

/-- Successive trace entries never increase: each step clamps a shrink by
the factor `0.92` at the 4 pt floor. -/
theorem refineTrace_chain (uw sig_width_pt : ℚ) :
    ∀ (n : ℕ) (c : ℚ), 4 ≤ c →
      List.Chain' (fun a b => b ≤ a) (refineTrace uw sig_width_pt c n) := by
  intro n
  induction n with
  | zero =>
    intro c h4
    rw [refineTrace]
    simp
  | succ n ih =>
    intro c h4
    rw [refineTrace]
    by_cases hstop :
        (if stringWidth uw c = 0 then 1 / 10 else stringWidth uw c) ≤ sig_width_pt ∨ c ≤ 4
    · rw [if_pos hstop]
      simp
    · rw [if_neg hstop]
      rw [List.chain'_cons']
      constructor
      · intro y hy
        rw [refineTrace_head] at hy
        have hy' : 4 ⊔ c * (92 / 100) = y := by simpa using hy
        rw [← hy']
        refine max_le h4 ?_
        nlinarith
      · exact ih _ (le_max_left 4 _)

/-- C5: for every nonnegative string width metric and every requested width,
the fitting search runs at most 20 refinement steps past the initial guess,
the candidate size sequence is monotonically non-increasing, its last entry
is the chosen size, and the chosen size's measured width fits under the
requested width unless the computation ended at the 4 pt floor. -/
theorem C5_vector_text_fitting (uw sig_width_pt : ℚ) (huw : 0 ≤ uw) :
    (fitTrace uw sig_width_pt).length ≤ 21 ∧
    List.Chain' (fun a b => b ≤ a) (fitTrace uw sig_width_pt) ∧
    (fitTrace uw sig_width_pt).getLast? = some (fitSize uw sig_width_pt) ∧
    (stringWidth uw (fitSize uw sig_width_pt) ≤ sig_width_pt ∨ fitSize uw sig_width_pt = 4) :=
  ⟨refineTrace_length uw sig_width_pt 20 _,
   refineTrace_chain uw sig_width_pt 20 _ (initialSize_bounds uw sig_width_pt).1,
   refineTrace_getLast uw sig_width_pt 20 _,
   fitSize_width uw sig_width_pt huw⟩

/-- Witness for C5 at the spec's example width `200`, with a text whose
width per point of font size is `1/2`. -/
theorem C5_vector_text_fitting_witness :
    (0 : ℚ) ≤ 1 / 2 ∧
    ((fitTrace (1 / 2) 200).length ≤ 21 ∧
      List.Chain' (fun a b => b ≤ a) (fitTrace (1 / 2) 200) ∧
      (fitTrace (1 / 2) 200).getLast? = some (fitSize (1 / 2) 200) ∧
      (stringWidth (1 / 2) (fitSize (1 / 2) 200) ≤ 200 ∨ fitSize (1 / 2) 200 = 4)) :=
  ⟨by norm_num, C5_vector_text_fitting (1 / 2) 200 (by norm_num)⟩

/-- C6 counterexample: on a one-page document, a placement targeting page
index 5 produces no `PlacementOutOfRange` failure; the transform returns the
document with the placement silently dropped. -/
theorem C6_counterexample :
    paste_signature_on_pdf [⟨612, 792⟩] [some ⟨5, 0, 0⟩] (1 / 2) 200 =
      Except.ok [(⟨612, 792⟩, [])] ∧
    paste_signature_on_pdf [⟨612, 792⟩] [some ⟨5, 0, 0⟩] (1 / 2) 200 ≠
      Except.error SignError.placementOutOfRange := by
  exact ⟨by decide, by decide⟩

/-- Grouping ignores placements whose page index is not the queried in-range
index, so removing out-of-range entries does not change any page's group. -/
theorem placementsFor_filter (placements : List (Option Placement)) (n : ℕ) (i : Int)
    (hi0 : 0 ≤ i) (hin : i < (n : Int)) :
    placementsFor (placements.filter (placementInRange n)) i = placementsFor placements i := by
  induction placements with
  | nil => rfl
  | cons op rest ih =>
    by_cases hk : placementInRange n op = true
    · rw [List.filter_cons, if_pos hk]
      unfold placementsFor at ih ⊢
      rw [List.filterMap_cons, List.filterMap_cons, ih]
    · rcases op with _ | p
      · exact absurd rfl hk
      · have hout : ¬(0 ≤ p.page_index ∧ p.page_index < (n : Int)) := by
          intro hcon
          apply hk
          show decide (0 ≤ p.page_index ∧ p.page_index < (n : Int)) = true
          exact decide_eq_true hcon
        have hne : p.page_index ≠ i := by
          intro he
          rw [he] at hout
          exact hout ⟨hi0, hin⟩
        rw [List.filter_cons, if_neg hk]
        unfold placementsFor at ih ⊢
        rw [List.filterMap_cons]
        have hbind : ((some p).bind fun q =>
            if q.page_index = i then some (q.x_norm, q.y_norm) else none) = none := by
          show (if p.page_index = i then some (p.x_norm, p.y_norm) else none) = none
          rw [if_neg hne]
        rw [hbind]
        exact ih

/-- C6 amended: a placement whose `page_index` has no corresponding page is
silently ignored rather than surfaced: the transform always returns an
overlay set (never a `PlacementOutOfRange` failure), and deleting every
out-of-range placement from the input leaves its output unchanged. -/
theorem C6_out_of_range_ignored (pages : List PageDim) (placements : List (Option Placement))
    (uw sig_width_pt : ℚ) :
    (∃ out, paste_signature_on_pdf pages placements uw sig_width_pt = Except.ok out) ∧
    paste_signature_on_pdf pages placements uw sig_width_pt =
      paste_signature_on_pdf pages (placements.filter (placementInRange pages.length))
        uw sig_width_pt := by
  refine ⟨⟨_, rfl⟩, ?_⟩
  unfold paste_signature_on_pdf
  congr 1
  apply List.map_congr_left
  intro pr hpr
  rcases pr with ⟨i, d⟩
  have hi : i < pages.length := (List.mem_enum hpr).1
  have hfor : placementsFor (placements.filter (placementInRange pages.length)) (Int.ofNat i) =
      placementsFor placements (Int.ofNat i) := by
    apply placementsFor_filter
    · exact Int.ofNat_nonneg i
    · show (i : Int) < (pages.length : Int)
      exact_mod_cast hi
  rw [hfor]

/-- With a nonpositive requested width the proportional guess clamps straight
to the floor. -/
theorem initialSize_of_nonpos (uw sig_width_pt : ℚ) (huw : 0 ≤ uw)
    (hs : sig_width_pt ≤ 0) : initialSize uw sig_width_pt = 4 := by
  unfold initialSize
  have hwpos : 0 < (if stringWidth uw 120 = 0 then 1 else stringWidth uw 120) := by
    split_ifs with h
    · norm_num
    · rcases lt_or_eq_of_le huw with hpos | hzero
      · rw [stringWidth]
        nlinarith
      · rw [stringWidth] at h ⊢
        rw [← hzero] at h
        simp at h
  have hscale : sig_width_pt / (if stringWidth uw 120 = 0 then 1 else stringWidth uw 120) ≤ 0 :=
    div_nonpos_of_nonpos_of_nonneg hs (le_of_lt hwpos)
  show max 4 (min (120 * (sig_width_pt /
      (if stringWidth uw 120 = 0 then 1 else stringWidth uw 120))) 300) = 4
  rw [min_eq_left (by linarith)]
  exact max_eq_left (by linarith)

/-- With a nonpositive requested width the whole fitting computation returns
the 4 pt floor. -/
theorem fitSize_of_nonpos (uw sig_width_pt : ℚ) (huw : 0 ≤ uw)
    (hs : sig_width_pt ≤ 0) : fitSize uw sig_width_pt = 4 := by
  unfold fitSize
  rw [initialSize_of_nonpos uw sig_width_pt huw hs]
  exact refineLoop_exit uw sig_width_pt 4 19 (Or.inr le_rfl)

/-- C7 counterexample: a signing request with requested width `-5` is not
rejected with `InvalidWidth`; the transform draws the signature at the 4 pt
floor and returns the overlay set. -/
theorem C7_counterexample :
    paste_signature_on_pdf [⟨612, 792⟩] [some ⟨0, 0, 0⟩] (1 / 2) (-5) =
      Except.ok [(⟨612, 792⟩, [(0, 3944 / 5)])] ∧
    paste_signature_on_pdf [⟨612, 792⟩] [some ⟨0, 0, 0⟩] (1 / 2) (-5) ≠
      Except.error SignError.invalidWidth := by
  have hfit : fitSize (1 / 2) (-5) = 4 :=
    fitSize_of_nonpos (1 / 2) (-5) (by norm_num) (by norm_num)
  have h1 : paste_signature_on_pdf [⟨612, 792⟩] [some ⟨0, 0, 0⟩] (1 / 2) (-5) =
      Except.ok [(⟨612, 792⟩, [(x_pt 0 612, y_baseline 792 0 (fitSize (1 / 2) (-5)))])] := rfl
  have h2 : paste_signature_on_pdf [⟨612, 792⟩] [some ⟨0, 0, 0⟩] (1 / 2) (-5) =
      Except.ok [(⟨612, 792⟩, [(0, 3944 / 5)])] := by
    rw [h1, hfit]
    norm_num [x_pt, y_baseline, ascentApprox]
  exact ⟨h2, by rw [h2]; exact fun h => Except.noConfusion h⟩

/-- C7 amended: a non-positive requested width is not rejected with
`InvalidWidth`; the transform still returns an overlay descriptor set, with
the fitted font size clamped to the 4 pt floor. -/
theorem C7_nonpositive_width_accepted (pages : List PageDim)
    (placements : List (Option Placement)) (uw sig_width_pt : ℚ)
    (huw : 0 ≤ uw) (hs : sig_width_pt ≤ 0) :
    (∃ out, paste_signature_on_pdf pages placements uw sig_width_pt = Except.ok out) ∧
    fitSize uw sig_width_pt = 4 :=
  ⟨⟨_, rfl⟩, fitSize_of_nonpos uw sig_width_pt huw hs⟩

/-- Witness for C7's amended claim at a concrete request: one placement on a
letter-size page, metric `1/2`, requested width `-5`. -/
theorem C7_nonpositive_width_accepted_witness :
    (0 : ℚ) ≤ 1 / 2 ∧ (-5 : ℚ) ≤ 0 ∧
    ((∃ out, paste_signature_on_pdf [⟨612, 792⟩] [some ⟨0, 0, 0⟩] (1 / 2) (-5) =
        Except.ok out) ∧
      fitSize (1 / 2) (-5) = 4) :=
  ⟨by norm_num, by norm_num,
    C7_nonpositive_width_accepted [⟨612, 792⟩] [some ⟨0, 0, 0⟩] (1 / 2) (-5)
      (by norm_num) (by norm_num)⟩

/-- Every initial accumulator bounds the fold of `max` from below. -/
theorem init_le_foldl_max : ∀ (m : List Int) (init : Int), init ≤ m.foldl max init := by
  intro m
  induction m with
  | nil =>
    intro init
    simp
  | cons y ys ih =>
    intro init
    rw [List.foldl_cons]
    exact le_trans (le_max_left init y) (ih (max init y))

/-- Every member bounds the fold of `max` from below. -/
theorem mem_le_foldl_max : ∀ (m : List Int) (init x : Int), x ∈ m → x ≤ m.foldl max init := by
  intro m
  induction m with
  | nil =>
    intro init x hx
    cases hx
  | cons y ys ih =>
    intro init x hx
    rw [List.foldl_cons]
    rcases List.mem_cons.mp hx with rfl | hx2
    · exact le_trans (le_max_right init x) (init_le_foldl_max ys (max init x))
    · exact ih (max init y) x hx2

/-- The end of every clipped range is bounded by the clipped list's maximal
end. -/
theorem snd_le_lastEnd (l : List (Int × Int)) : ∀ a ∈ l, a.2 ≤ lastEnd l := by
  intro a ha
  unfold lastEnd
  exact mem_le_foldl_max (l.map Prod.snd) (l.headD (0, 0)).2 a.2
    (List.mem_map_of_mem Prod.snd ha)

/-- Every range surviving the clip step satisfies `start ≤ end`. -/
theorem clipRanges_fst_le_snd (ranges : List (Int × Int)) (total_pages : Int) :
    ∀ a ∈ clipRanges ranges total_pages, a.1 ≤ a.2 := by
  intro a ha
  unfold clipRanges at ha
  rcases List.mem_filterMap.mp ha with ⟨r, _, hfr⟩
  by_cases h1 : r.1 > total_pages
  · rw [if_pos h1] at hfr
    cases hfr
  · rw [if_neg h1] at hfr
    by_cases h2 : min r.2 total_pages ≥ r.1
    · rw [if_pos h2] at hfr
      cases hfr
      exact h2
    · rw [if_neg h2] at hfr
      cases hfr

/-- The clip step keeps each survivor's `start`, so it preserves sortedness
by `start`. -/
theorem clipRanges_sorted (ranges : List (Int × Int)) (total_pages : Int)
    (hs : ranges.Pairwise (fun a b => a.1 ≤ b.1)) :
    (clipRanges ranges total_pages).Pairwise (fun a b => a.1 ≤ b.1) := by
  unfold clipRanges
  apply List.Pairwise.filterMap _ _ hs
  intro a a' haa' b hb b' hb'
  have hb1 : b.1 = a.1 := by
    by_cases h1 : a.1 > total_pages
    · rw [if_pos h1] at hb
      cases hb
    · rw [if_neg h1] at hb
      by_cases h2 : min a.2 total_pages ≥ a.1
      · rw [if_pos h2] at hb
        cases hb
        rfl
      · rw [if_neg h2] at hb
        cases hb
  have hb'1 : b'.1 = a'.1 := by
    by_cases h1 : a'.1 > total_pages
    · rw [if_pos h1] at hb'
      cases hb'
    · rw [if_neg h1] at hb'
      by_cases h2 : min a'.2 total_pages ≥ a'.1
      · rw [if_pos h2] at hb'
        cases hb'
        rfl
      · rw [if_neg h2] at hb'
        cases hb'
  rw [hb1, hb'1]
  exact haa'

/-- C8: the sort step orders parsed ranges ascending by `(start, end)` —
ties in `start` resolved by the smaller `end` — while keeping every
user-specified range as a distinct entry (the output is a permutation of the
input, so overlapping ranges are never merged), and the emitted plan, the
appended trailing gap-fill range included, is sorted ascending by `start`. -/
theorem C8_sort_and_plan_order (l : List (Int × Int)) (starts ends : List String)
    (total_pages : Int) (ranges plan : List (Int × Int))
    (hp : parse_ranges starts ends = Except.ok ranges)
    (hb : buildPlan ranges total_pages = Except.ok plan) :
    (sortRanges l).Sorted rLex ∧ (sortRanges l).Perm l ∧
    plan.Sorted (fun a b => a.1 ≤ b.1) := by
  refine ⟨List.sorted_insertionSort rLex l, List.perm_insertionSort rLex l, ?_⟩
  have hsorted : ranges.Sorted rLex := by
    unfold parse_ranges at hp
    rcases hpl : parseLoop (starts.zip ends) with err | rs
    · rw [hpl] at hp
      have hp2 : (Except.error err : Except RangeError (List (Int × Int))) =
          Except.ok ranges := hp
      cases hp2
    · rw [hpl] at hp
      have hp2 : (if rs = [] then
            (Except.error RangeError.noRangesProvided :
              Except RangeError (List (Int × Int)))
          else Except.ok (sortRanges rs)) = Except.ok ranges := hp
      by_cases hre : rs = []
      · rw [if_pos hre] at hp2
        cases hp2
      · rw [if_neg hre] at hp2
        cases hp2
        exact List.sorted_insertionSort rLex rs
  have hstart : ranges.Pairwise (fun a b => a.1 ≤ b.1) := by
    apply List.Pairwise.imp _ hsorted
    intro a b hab
    unfold rLex at hab
    omega
  have hclip := clipRanges_sorted ranges total_pages hstart
  have hplan : plan = gapFill (clipRanges ranges total_pages) total_pages := by
    unfold buildPlan at hb
    have hb2 : (if clipRanges ranges total_pages = [] then
          (Except.error RangeError.rangesOutOfBounds :
            Except RangeError (List (Int × Int)))
        else Except.ok (gapFill (clipRanges ranges total_pages) total_pages)) =
        Except.ok plan := hb
    by_cases hc : clipRanges ranges total_pages = []
    · rw [if_pos hc] at hb2
      cases hb2
    · rw [if_neg hc] at hb2
      cases hb2
      rfl
  rw [hplan]
  unfold gapFill
  by_cases hlt : lastEnd (clipRanges ranges total_pages) < total_pages
  · rw [if_pos hlt]
    refine List.pairwise_append.mpr ⟨hclip, List.pairwise_singleton _ _, ?_⟩
    intro a ha b hbm
    have hbeq : b = (lastEnd (clipRanges ranges total_pages) + 1, total_pages) := by
      simpa using hbm
    have h1 := clipRanges_fst_le_snd ranges total_pages a ha
    have h2 := snd_le_lastEnd (clipRanges ranges total_pages) a ha
    rw [hbeq]
    show a.1 ≤ lastEnd (clipRanges ranges total_pages) + 1
    omega
  · rw [if_neg hlt]
    exact hclip

/-- Witness for C8: an unsorted pair of overlapping ranges is sorted by
`(start, end)` and kept intact, and the concrete plan for `total_pages = 10`
is sorted by `start`. -/
theorem C8_sort_and_plan_order_witness :
    (sortRanges [(5, 6), (1, 3)]).Sorted rLex ∧
    (sortRanges [(5, 6), (1, 3)]).Perm [(5, 6), (1, 3)] ∧
    ([(1, 3), (5, 6), (7, 10)] : List (Int × Int)).Sorted (fun a b => a.1 ≤ b.1) :=
  C8_sort_and_plan_order [(5, 6), (1, 3)] ["1", "5"] ["3", "6"] 10 [(1, 3), (5, 6)]
    [(1, 3), (5, 6), (7, 10)] (by decide) (by decide)

end PdfLove
